import Mathlib

/-
Verification development for the asr-project repository.

The repository is a Next.js application with a single server route,
src/app/api/transcribe/route.ts, and a client page, src/app/page.tsx.
This file gives a shallow embedding of the logic those files contain:

* the exponential-backoff retry helper `retryWithBackoff` (route.ts lines 23-42),
* the JavaScript regex match for the pattern bracket-brace-anything-brace-bracket
  used to cut a JSON array out of the model reply (route.ts line 136),
* a model of `JSON.parse` restricted to values the route can observe
  (numbers are kept as their source lexeme, since no claim inspects a
  numeric value; `\uXXXX` escapes are decoded to unicode scalar values,
  surrogate halves being unrepresentable in `Char`),
* the object-spread-plus-filename overlay (route.ts lines 151-154),
* the request handler `POST` as a function from an environment describing
  the request and the upstream service to an HTTP response plus the
  observable filesystem effects (scratch file written / deletion attempted),
* the client's download serializer `JSON.stringify(timeline, null, 2)`
  (page.tsx lines 60-75) and a JSON decoder for the produced file.

Strings are modelled as `List Char`.  All definitions are structurally
recursive (loops carry explicit fuel), so every theorem below can be
evaluated on concrete inputs by `rfl` or `decide`.
-/

namespace Asr

/-! ## Characters and strings -/

/-- The character list of a string literal. -/
def str (s : String) : List Char := s.data

/-- JavaScript's regex class backslash-s: whitespace as the regex engine in
route.ts sees it (ASCII whitespace, NBSP, BOM, and the unicode space blocks). -/
def isWs (c : Char) : Bool :=
  c = ' ' || c = '\t' || c = '\n' || c = '\r' ||
  c = Char.ofNat 11 || c = Char.ofNat 12 ||
  c = Char.ofNat 0xa0 || c = Char.ofNat 0x1680 ||
  (0x2000 ≤ c.toNat && c.toNat ≤ 0x200a) ||
  c = Char.ofNat 0x2028 || c = Char.ofNat 0x2029 ||
  c = Char.ofNat 0x202f || c = Char.ofNat 0x205f ||
  c = Char.ofNat 0x3000 || c = Char.ofNat 0xfeff

/-- JSON (RFC 8259) whitespace, the set `JSON.parse` skips between tokens. -/
def jsonWs (c : Char) : Bool :=
  c = ' ' || c = '\t' || c = '\n' || c = '\r'

/-! ## The extraction regex of route.ts line 136

`text.match(/\[\s*\{[\s\S]*\}\s*\]/)`: the JavaScript engine returns the
match with the leftmost start; at that start the greedy star makes the
match run to the last position where brace-whitespace-bracket closes.
`matchOpen` is the mandatory head (bracket, whitespace run, brace);
`findTailRev` scans the reversed remainder for the first closing pair it
meets, which is the last one of the original text; `extractJson` tries
each start position from the left, exactly as the engine does. -/

/-- Match the head of the pattern: an opening bracket, a whitespace run,
an opening brace.  Returns the consumed characters and the remainder. -/
def matchOpen : List Char → Option (List Char × List Char)
  | [] => none
  | c :: rest =>
    if c = '[' then
      match rest.dropWhile isWs with
      | '{' :: r2 => some ('[' :: rest.takeWhile isWs ++ ['{'], r2)
      | _ => none
    else none

/-- Scan a reversed remainder for the closing brace-whitespace-bracket.
`act = true` records that a closing bracket was seen at reversed index
`k` with only whitespace since; meeting a closing brace then ends the
match at that bracket.  The first completion in the reversed text is the
last one of the original, which is what the greedy star backtracks to. -/
def findTailRev : List Char → Nat → Bool → Nat → Option Nat
  | [], _, _, _ => none
  | c :: cs, j, act, k =>
    if c = ']' then findTailRev cs (j + 1) true j
    else if act then
      if c = '}' then some k
      else if isWs c then findTailRev cs (j + 1) true k
      else findTailRev cs (j + 1) false 0
    else findTailRev cs (j + 1) false 0

/-- The substring `text.match(/\[\s*\{[\s\S]*\}\s*\]/)` selects, or `none`
when the regex does not match. -/
def extractJson : List Char → Option (List Char)
  | [] => none
  | c :: cs =>
    match matchOpen (c :: cs) with
    | some pr =>
      match findTailRev pr.2.reverse 0 false 0 with
      | some k => some (pr.1 ++ pr.2.take (pr.2.length - k))
      | none => extractJson cs
    | none => extractJson cs

/-- Whether a text, as a whole, has the shape of the regex pattern:
bracket, whitespace, brace, anything, brace, whitespace, bracket. -/
def patShaped (t : List Char) : Bool :=
  match matchOpen t with
  | none => false
  | some pr =>
    match pr.2.reverse with
    | ']' :: r2 =>
      match r2.dropWhile isWs with
      | '}' :: _ => true
      | _ => false
    | _ => false

/-- Whether a text contains a start of the pattern: an opening bracket
whose first non-whitespace successor inside the text is an opening brace. -/
def hasOpenPat : List Char → Bool
  | [] => false
  | c :: cs =>
    if c = '[' then
      match cs.dropWhile isWs with
      | '{' :: _ => true
      | _ => hasOpenPat cs
    else hasOpenPat cs

/-- Whether scanning a reversed text (see `findTailRev`) meets a closing
completion; the boolean state records whether a closing bracket is active. -/
def scanCompletes : List Char → Bool → Bool
  | [], _ => false
  | c :: cs, active =>
    if c = ']' then scanCompletes cs true
    else if active then
      if c = '}' then true
      else if isWs c then scanCompletes cs true
      else scanCompletes cs false
    else scanCompletes cs false

/-! ## A model of `JSON.parse`

Restricted where the claims cannot observe the difference: a number is
validated against the RFC 8259 grammar but kept as its lexeme (no claim
inspects a numeric value), and a `\uXXXX` escape naming a surrogate half
is rejected (not representable as a `Char`). -/

/-- A decoded JSON value. -/
inductive JVal where
  | jnull
  | jbool (b : Bool)
  | jnum (lexeme : List Char)
  | jstr (s : List Char)
  | jarr (elems : List JVal)
  | jobj (fields : List (List Char × JVal))

/-- JavaScript property write: replace the value at an existing key,
keeping its position, else append the key at the end. -/
def setField (fields : List (List Char × JVal)) (key : List Char) (v : JVal) :
    List (List Char × JVal) :=
  match fields with
  | [] => [(key, v)]
  | (k, w) :: rest =>
    if k = key then (k, v) :: rest else (k, w) :: setField rest key v

/-- JavaScript property read (after `collapseFields` keys are unique, so
the first hit is the value). -/
def getField (fields : List (List Char × JVal)) (key : List Char) : Option JVal :=
  match fields with
  | [] => none
  | (k, v) :: rest => if k = key then some v else getField rest key

/-- Build an object from parsed members in order, as `JSON.parse` does:
a duplicated key keeps its first position and its last value. -/
def collapseFields (fields : List (List Char × JVal)) : List (List Char × JVal) :=
  fields.foldl (fun acc kv => setField acc kv.1 kv.2) []

/-- The value of a hexadecimal digit. -/
def hexVal (c : Char) : Option Nat :=
  if '0' ≤ c ∧ c ≤ '9' then some (c.toNat - 48)
  else if 'a' ≤ c ∧ c ≤ 'f' then some (c.toNat - 87)
  else if 'A' ≤ c ∧ c ≤ 'F' then some (c.toNat - 55)
  else none

/-- The character a single-letter JSON escape denotes, or `none` when
the letter is not a valid escape. -/
def unescChar (e : Char) : Option Char :=
  if e = '"' then some '"'
  else if e = '\\' then some '\\'
  else if e = '/' then some '/'
  else if e = 'b' then some (Char.ofNat 8)
  else if e = 'f' then some (Char.ofNat 12)
  else if e = 'n' then some '\n'
  else if e = 'r' then some '\r'
  else if e = 't' then some '\t'
  else none

/-- Parse the body of a JSON string, after the opening quote, up to and
over the closing quote.  Escapes follow RFC 8259; a raw control
character is a syntax error, as in `JSON.parse`. -/
def parseStringBody : List Char → Option (List Char × List Char)
  | [] => none
  | c :: rest =>
    if c = '"' then some ([], rest)
    else if c = '\\' then
      match rest with
      | [] => none
      | e :: r1 =>
        if e = 'u' then
          match r1 with
          | h1 :: h2 :: h3 :: h4 :: r2 =>
            match hexVal h1, hexVal h2, hexVal h3, hexVal h4 with
            | some a, some b, some c3, some d =>
              let n := 4096 * a + 256 * b + 16 * c3 + d
              if 0xd800 ≤ n ∧ n ≤ 0xdfff then none
              else (parseStringBody r2).map fun p => (Char.ofNat n :: p.1, p.2)
            | _, _, _, _ => none
          | _ => none
        else
          match unescChar e with
          | some ch => (parseStringBody r1).map fun p => (ch :: p.1, p.2)
          | none => none
    else if c.toNat < 32 then none
    else (parseStringBody rest).map fun p => (c :: p.1, p.2)

/-- A decimal digit. -/
def isDigit (c : Char) : Bool := '0' ≤ c && c ≤ '9'

/-- Validate a number against the RFC 8259 grammar and return its lexeme. -/
def parseNumLex (s : List Char) : Option (List Char × List Char) :=
  let (sgn, s1) : List Char × List Char :=
    match s with
    | '-' :: r => (['-'], r)
    | _ => ([], s)
  match s1 with
  | [] => none
  | c :: r =>
    if c = '0' then someIntRest sgn ['0'] r
    else if isDigit c then
      someIntRest sgn (c :: r.takeWhile isDigit) (r.dropWhile isDigit)
    else none
where
  /-- After the integer digits: optional fraction, optional exponent. -/
  someIntRest (sgn intPart : List Char) (r : List Char) :
      Option (List Char × List Char) :=
    let (frac, r2) : List Char × List Char :=
      match r with
      | '.' :: r1 =>
        match r1.takeWhile isDigit with
        | [] => (['.'], r1)
        | ds => ('.' :: ds, r1.dropWhile isDigit)
      | _ => ([], r)
    if frac = ['.'] then none
    else
      match r2 with
      | e :: r3 =>
        if e = 'e' ∨ e = 'E' then
          let (esgn, r4) : List Char × List Char :=
            match r3 with
            | '+' :: r5 => (['+'], r5)
            | '-' :: r5 => (['-'], r5)
            | _ => ([], r3)
          match r4.takeWhile isDigit with
          | [] => none
          | ds => some (sgn ++ intPart ++ frac ++ e :: esgn ++ ds,
                        r4.dropWhile isDigit)
        else some (sgn ++ intPart ++ frac, r2)
      | [] => some (sgn ++ intPart ++ frac, r2)

/-- Parse the comma-separated elements of a non-empty array with element
parser `pv`, consuming the closing bracket.  The fuel bounds the element
count; since every element takes at least one character, the input
length plus one (what `parseValStep` passes) never runs out. -/
def parseItemsH (pv : List Char → Option (JVal × List Char)) :
    Nat → List Char → Option (List JVal × List Char)
  | 0, _ => none
  | g + 1, s =>
    match pv s with
    | none => none
    | some (v, rest) =>
      match rest.dropWhile jsonWs with
      | ',' :: r2 =>
        (parseItemsH pv g (r2.dropWhile jsonWs)).map fun p => (v :: p.1, p.2)
      | ']' :: r2 => some ([v], r2)
      | _ => none

/-- Parse the members of a non-empty object with value parser `pv`,
consuming the closing brace. -/
def parseFieldsH (pv : List Char → Option (JVal × List Char)) :
    Nat → List Char → Option (List (List Char × JVal) × List Char)
  | 0, _ => none
  | g + 1, s =>
    match s with
    | '"' :: r =>
      match parseStringBody r with
      | some (key, r1) =>
        match r1.dropWhile jsonWs with
        | ':' :: r3 =>
          match pv (r3.dropWhile jsonWs) with
          | some (v, r4) =>
            match r4.dropWhile jsonWs with
            | ',' :: r6 =>
              (parseFieldsH pv g (r6.dropWhile jsonWs)).map fun p =>
                ((key, v) :: p.1, p.2)
            | '}' :: r6 => some ([(key, v)], r6)
            | _ => none
          | none => none
        | _ => none
      | none => none
    | _ => none

/-- One layer of JSON value parsing: scalars directly, arrays and objects
through the item parsers with `pv` for the nested values.  The head of
the input is expected to be a non-whitespace character. -/
def parseValStep (pv : List Char → Option (JVal × List Char))
    (s : List Char) : Option (JVal × List Char) :=
  match s with
  | [] => none
  | c :: r =>
    if c = 'n' then
      match r with
      | 'u' :: 'l' :: 'l' :: r2 => some (.jnull, r2)
      | _ => none
    else if c = 't' then
      match r with
      | 'r' :: 'u' :: 'e' :: r2 => some (.jbool true, r2)
      | _ => none
    else if c = 'f' then
      match r with
      | 'a' :: 'l' :: 's' :: 'e' :: r2 => some (.jbool false, r2)
      | _ => none
    else if c = '"' then
      match parseStringBody r with
      | some (cs, r2) => some (.jstr cs, r2)
      | none => none
    else if c = '[' then
      match r.dropWhile jsonWs with
      | ']' :: r2 => some (.jarr [], r2)
      | r1 =>
        match parseItemsH pv (r1.length + 1) r1 with
        | some (vs, r2) => some (.jarr vs, r2)
        | none => none
    else if c = '{' then
      match r.dropWhile jsonWs with
      | '}' :: r2 => some (.jobj [], r2)
      | r1 =>
        match parseFieldsH pv (r1.length + 1) r1 with
        | some (fs, r2) => some (.jobj (collapseFields fs), r2)
        | none => none
    else if c = '-' ∨ isDigit c then
      match parseNumLex s with
      | some (lx, r2) => some (.jnum lx, r2)
      | none => none
    else none

/-- Parse one JSON value at the head of the text (no leading whitespace).
The fuel bounds the nesting depth only; every level of nesting takes at
least one character, so the text length plus one never runs out. -/
def parseVal : Nat → List Char → Option (JVal × List Char)
  | 0 => fun _ => none
  | f + 1 => parseValStep (parseVal f)

/-- `JSON.parse`: skip leading whitespace, parse one value, require that
only whitespace follows.  `none` is a thrown `SyntaxError`. -/
def jsonParse (s : List Char) : Option JVal :=
  match parseVal (s.length + 1) (s.dropWhile jsonWs) with
  | some (v, rest) => if (rest.dropWhile jsonWs).isEmpty then some v else none
  | none => none

/-! ## The filename overlay of route.ts lines 151-154

`timeline.map(entry => ({...entry, filename: file.name}))`: object spread
of whatever `JSON.parse` produced, then a `filename` property write. -/

/-- The decimal digits of a number, for JavaScript index keys; the fuel
argument only makes the recursion structural. -/
def natDigitsGo : Nat → Nat → List Char
  | 0, _ => []
  | f + 1, n =>
    if n < 10 then [Char.ofNat (48 + n)]
    else natDigitsGo f (n / 10) ++ [Char.ofNat (48 + n % 10)]

/-- The decimal digits of a number. -/
def natDigits (n : Nat) : List Char := natDigitsGo (n + 1) n

/-- Index keys for spreading an array. -/
def indexPairsArr : Nat → List JVal → List (List Char × JVal)
  | _, [] => []
  | i, x :: xs => (natDigits i, x) :: indexPairsArr (i + 1) xs

/-- Index keys for spreading a string (its characters). -/
def indexPairsStr : Nat → List Char → List (List Char × JVal)
  | _, [] => []
  | i, c :: cs => (natDigits i, .jstr [c]) :: indexPairsStr (i + 1) cs

/-- JavaScript object spread `{...v}`: an object contributes its
properties, an array or string its indexed elements, a primitive nothing. -/
def spreadFields : JVal → List (List Char × JVal)
  | .jobj fs => fs
  | .jarr xs => indexPairsArr 0 xs
  | .jstr s => indexPairsStr 0 s
  | _ => []

/-- The key the route overlays. -/
def filenameKey : List Char := str "filename"

/-- `{...entry, filename: name}` for one decoded entry. -/
def overlayEntry (name : List Char) (v : JVal) : JVal :=
  .jobj (setField (spreadFields v) filenameKey (.jstr name))

/-! ## The retry helper of route.ts lines 23-42 -/

/-- A JavaScript thrown value as the retry loop inspects it: whether it is
an `Error` instance, and its message. -/
structure JsErr where
  isErrorInst : Bool
  msg : List Char
deriving DecidableEq

/-- Whether `message.includes` finds the three characters 4, 2, 9. -/
def has429 : List Char → Bool
  | '4' :: '2' :: '9' :: _ => true
  | _ :: cs => has429 cs
  | [] => false

/-- The retry condition of route.ts line 33, positively: the thrown value
is an `Error` whose message mentions 429.  The code throws when
`retries >= maxRetries`, or the value is not an `Error`, or the message
lacks 429; the last two disjuncts are the negation of `is429`. -/
def is429 (e : JsErr) : Bool := e.isErrorInst && has429 e.msg

/-- The body of `retryWithBackoff`'s `while (true)` loop.  `r` is the
`retries` counter; the `fuel` argument only makes the recursion
structural and is started at `maxRetries`, which the loop never exceeds
because it stops as soon as `maxRetries ≤ r`.  Returns the propagated
result, the number of invocations of the operation, and the list of
waits performed (route.ts line 36: `initialDelay * 2 ** retries`). -/
def retryAuxF {A : Type} (gen : Nat → Except JsErr A) (d maxR : Nat) :
    Nat → Nat → Except JsErr A × Nat × List Nat
  | fuel, r =>
    match gen r with
    | .ok a => (.ok a, r + 1, [])
    | .error e =>
      if maxR ≤ r ∨ is429 e = false then (.error e, r + 1, [])
      else
        match fuel with
        | 0 => (.error e, r + 1, [])
        | f + 1 =>
          let p := retryAuxF gen d maxR f (r + 1)
          (p.1, p.2.1, d * 2 ^ r :: p.2.2)

/-- `retryWithBackoff(fn, maxRetries, initialDelay)` of route.ts lines
23-42, with `gen k` the outcome of the k-th invocation of `fn`. -/
def retryWithBackoff {A : Type} (gen : Nat → Except JsErr A)
    (maxRetries initialDelay : Nat) : Except JsErr A × Nat × List Nat :=
  retryAuxF gen initialDelay maxRetries maxRetries 0

/-! ## The POST handler of route.ts lines 44-171

The request and the upstream service are abstracted into an environment:
the outcome of `request.formData()` and its `video` field, the outcome
of each `model.generateContent` invocation (together with
`result.response.text()`, modelled as one upstream step yielding the
reply text), and whether `unlink` succeeds.  Writing the scratch file is
modelled as succeeding; the route gives it no failure handling of its
own, so a write failure would simply surface through the outer catch
like any other thrown error.  The result records the response together
with the observable effects: whether the scratch file was written,
whether its deletion was attempted, whether it is still on disk
afterwards, and how many upstream invocations were made. -/

/-- The `video` form field: the original file name and declared MIME type
(the bytes play no role in any claim and are not recorded). -/
structure FileData where
  name : List Char
  mime : List Char

/-- The abstracted request environment. -/
structure Env where
  formData : Except JsErr (Option FileData)
  gen : Nat → Except JsErr (List Char)
  unlinkOk : Bool

/-- A response body: an error payload or a JSON array payload. -/
inductive RespBody where
  | errBody (msg : List Char)
  | arrBody (timeline : List JVal)

/-- An HTTP response. -/
structure HttpResponse where
  status : Nat
  body : RespBody

/-- The handler's observable outcome. -/
structure RouteResult where
  resp : HttpResponse
  scratchWritten : Bool
  deletionAttempted : Bool
  fileExistsAfter : Bool
  genCalls : Nat

/-- The message of the outer catch (route.ts line 167):
`error instanceof Error ? error.message : 'Failed to process video'`. -/
def catchMsg (e : JsErr) : List Char :=
  if e.isErrorInst then e.msg else str "Failed to process video"

/-- The body of the parse-failure response (route.ts line 145). -/
def parseErrorMsg : List Char := str "Failed to parse transcription response"

/-- The body of the missing-field response (route.ts line 51). -/
def noVideoMsg : List Char := str "No video file provided"

/-- The POST handler.  Control flow is that of route.ts lines 44-171: a
missing `video` field returns 400 before the scratch write and before
any upstream call; the upstream call runs under `retryWithBackoff` with
the defaults 3 and 1000; the regex extraction and `JSON.parse` failures
both return 500 from the inner catch; only after a successful parse is
the filename overlaid, the scratch file unlinked (failure logged,
non-fatal) and the timeline returned; every other thrown error reaches
the outer catch and becomes a 500. -/
def post (env : Env) : RouteResult :=
  match env.formData with
  | .error e =>
    ⟨⟨500, .errBody (catchMsg e)⟩, false, false, false, 0⟩
  | .ok none =>
    ⟨⟨400, .errBody noVideoMsg⟩, false, false, false, 0⟩
  | .ok (some file) =>
    -- the scratch file is written here (route.ts line 68)
    let r := retryWithBackoff env.gen 3 1000
    match r.1 with
    | .error e =>
      -- upstream failure propagates to the outer catch; no cleanup runs
      ⟨⟨500, .errBody (catchMsg e)⟩, true, false, true, r.2.1⟩
    | .ok text =>
      match extractJson text with
      | none =>
        -- `throw new Error('No valid JSON found in response')`, caught
        -- by the inner catch (route.ts lines 139-148); no cleanup runs
        ⟨⟨500, .errBody parseErrorMsg⟩, true, false, true, r.2.1⟩
      | some m =>
        match jsonParse m with
        | none =>
          -- `JSON.parse` threw; inner catch again, no cleanup
          ⟨⟨500, .errBody parseErrorMsg⟩, true, false, true, r.2.1⟩
        | some v =>
          match v with
          | .jarr vs =>
            let timeline := vs.map (overlayEntry file.name)
            -- cleanup attempted; its failure is logged and non-fatal
            ⟨⟨200, .arrBody timeline⟩, true, true, !env.unlinkOk, r.2.1⟩
          | _ =>
            -- unreachable: the extracted text begins with a bracket, so
            -- a successful parse is an array; kept for the shape of the
            -- code, where `timeline.map` would throw to the outer catch
            ⟨⟨500, .errBody (str "timeline.map is not a function")⟩,
              true, false, true, r.2.1⟩

/-! ## The client download of page.tsx lines 60-75

`JSON.stringify(timeline, null, 2)` over the client's `TimelineEntry[]`
state, and a JSON decoder for the produced file. -/

/-- The client's timeline entry (page.tsx lines 11-17). -/
structure TimelineEntry where
  filename : List Char
  tc_in : List Char
  tc_out : List Char
  speaker : List Char
  dialogue : List Char
deriving DecidableEq

/-- The lower-case hexadecimal digit of a value below 16. -/
def hexDigitChar (n : Nat) : Char :=
  if n < 10 then Char.ofNat (48 + n) else Char.ofNat (87 + n)

/-- How `JSON.stringify` writes one character of a string: named escapes
for quote, backslash and the usual control characters, `\u00XX` for the
other control characters, the character itself otherwise. -/
def escChar (c : Char) : List Char :=
  if c = '"' then ['\\', '"']
  else if c = '\\' then ['\\', '\\']
  else if c = Char.ofNat 8 then ['\\', 'b']
  else if c = Char.ofNat 12 then ['\\', 'f']
  else if c = '\n' then ['\\', 'n']
  else if c = '\r' then ['\\', 'r']
  else if c = '\t' then ['\\', 't']
  else if c.toNat < 32 then
    ['\\', 'u', '0', '0'] ++
      [hexDigitChar (c.toNat / 16), hexDigitChar (c.toNat % 16)]
  else [c]

/-- A JSON string literal for `s`. -/
def quoteStr (s : List Char) : List Char :=
  '"' :: (s.map escChar).flatten ++ ['"']

/-- One member line of a pretty-printed entry: four spaces of indent,
the quoted key, a colon and a space, the quoted value. -/
def fieldText (key v : List Char) : List Char :=
  ' ' :: ' ' :: ' ' :: ' ' :: quoteStr key ++ ':' :: ' ' :: quoteStr v

/-- One entry as `JSON.stringify(_, null, 2)` prints it at array depth:
members separated by comma-newline, the closing brace under a two-space
indent. -/
def entryText (e : TimelineEntry) : List Char :=
  '\x7b' :: '\n' :: fieldText (str "filename") e.filename ++
  ',' :: '\n' :: fieldText (str "tc_in") e.tc_in ++
  ',' :: '\n' :: fieldText (str "tc_out") e.tc_out ++
  ',' :: '\n' :: fieldText (str "speaker") e.speaker ++
  ',' :: '\n' :: fieldText (str "dialogue") e.dialogue ++
  '\n' :: ' ' :: ' ' :: ['\x7d']

/-- The elements of the array body: each entry at a two-space indent,
separated by comma-newline, the closing bracket on its own line. -/
def itemsText : List TimelineEntry → List Char
  | [] => [']']
  | [e] => entryText e ++ '\n' :: [']']
  | e :: rest => entryText e ++ ',' :: '\n' :: ' ' :: ' ' :: itemsText rest

/-- `JSON.stringify(timeline, null, 2)`, the content of the downloaded
file (page.tsx line 66). -/
def renderTimeline : List TimelineEntry → List Char
  | [] => ['[', ']']
  | ts => '[' :: '\n' :: ' ' :: ' ' :: itemsText ts

/-- The JSON value a client entry denotes, member order being that of
the `TimelineEntry` interface. -/
def entryJVal (e : TimelineEntry) : JVal :=
  .jobj [(str "filename", .jstr e.filename),
         (str "tc_in", .jstr e.tc_in),
         (str "tc_out", .jstr e.tc_out),
         (str "speaker", .jstr e.speaker),
         (str "dialogue", .jstr e.dialogue)]

/-- Read a client entry back out of a decoded JSON object. -/
def entryOfJVal : JVal → Option TimelineEntry
  | .jobj fs =>
    match getField fs (str "filename"), getField fs (str "tc_in"),
          getField fs (str "tc_out"), getField fs (str "speaker"),
          getField fs (str "dialogue") with
    | some (.jstr fn), some (.jstr ti), some (.jstr tco), some (.jstr sp),
      some (.jstr dl) => some ⟨fn, ti, tco, sp, dl⟩
    | _, _, _, _, _ => none
  | _ => none

/-- Read a client timeline back out of decoded JSON array elements. -/
def entriesOfJVals : List JVal → Option (List TimelineEntry)
  | [] => some []
  | v :: vs =>
    match entryOfJVal v, entriesOfJVals vs with
    | some e, some es => some (e :: es)
    | _, _ => none

/-- Decode a downloaded file: `JSON.parse`, require an array, read the
entries. -/
def decodeTimeline (s : List Char) : Option (List TimelineEntry) :=
  match jsonParse s with
  | some (.jarr vs) => entriesOfJVals vs
  | _ => none

/-! ## Facts about the retry helper -/

/-- When every attempt up to `maxR` fails rate-limited, the loop runs all
the way: the result from `retries = r` is the error of attempt `maxR`,
`maxR + 1` invocations in total, and one wait of `d * 2 ^ k` for each
`k` from `r` to `maxR - 1`. -/
theorem retryAuxF_allFail {A : Type} (gen : Nat → Except JsErr A)
    (eF : Nat → JsErr) (d maxR : Nat)
    (hg : ∀ k, k ≤ maxR → gen k = .error (eF k))
    (h4 : ∀ k, k ≤ maxR → is429 (eF k) = true) :
    ∀ n r fuel, r + n = maxR → n ≤ fuel →
      retryAuxF gen d maxR fuel r =
        (.error (eF maxR), maxR + 1, (List.range' r n).map fun k => d * 2 ^ k) := by
  intro n
  induction n with
  | zero =>
    intro r fuel h _
    have hr : r = maxR := by omega
    subst hr
    simp [retryAuxF, hg r le_rfl, List.range']
  | succ n ih =>
    intro r fuel h hf
    have hr : r < maxR := by omega
    obtain ⟨f, rfl⟩ : ∃ f, fuel = f + 1 := ⟨fuel - 1, by omega⟩
    rw [retryAuxF, hg r (by omega)]
    have hrec := ih (r + 1) f (by omega) (by omega)
    simp [h4 r (by omega), hrec, List.range', show ¬ maxR ≤ r by omega]

/-- A rate-limited error value. -/
def e429 : JsErr := ⟨true, str "429 Too Many Requests"⟩

/-- A non-rate-limited error value. -/
def eQuota : JsErr := ⟨false, str "quota exhausted"⟩

/-- C2, counterexample: an operation that fails rate-limited on every
invocation is, at the default settings `maxRetries = 3` and
`initialDelay = 1000`, invoked four times — not at most three as the
claim states — with the three waits 1000, 2000, 4000, and only the
fourth failure is propagated. -/
theorem c2_retry_at_most_counterexample :
    retryWithBackoff (fun _ => (.error e429 : Except JsErr (List Char))) 3 1000 =
      (.error e429, 4, [ 1000, 2000, 4000 ]) ∧ ¬ (4 ≤ 3) :=
  ⟨rfl, by omega⟩

/-- C2, amended: for an operation that fails rate-limited on every
invocation, `retryWithBackoff` with parameters `maxRetries` and
`initialDelay` invokes the operation exactly `maxRetries + 1` times
(4 at the defaults), waits `initialDelay * 2 ^ k` after the rate-limited
failure of attempt `k` for `k = 0 .. maxRetries - 1` (1s, 2s, 4s at the
defaults), and propagates the last failure, that of attempt
`maxRetries`. -/
theorem c2_retry_all_rate_limited {A : Type} (gen : Nat → Except JsErr A)
    (eF : Nat → JsErr) (maxRetries initialDelay : Nat)
    (hg : ∀ k, k ≤ maxRetries → gen k = .error (eF k))
    (h4 : ∀ k, k ≤ maxRetries → is429 (eF k) = true) :
    retryWithBackoff gen maxRetries initialDelay =
      (.error (eF maxRetries), maxRetries + 1,
        (List.range maxRetries).map fun k => initialDelay * 2 ^ k) := by
  rw [retryWithBackoff,
    retryAuxF_allFail gen eF initialDelay maxRetries hg h4 maxRetries 0 maxRetries
      (by omega) le_rfl, List.range_eq_range']

/-- C2, witness: the amended statement at a concrete always-rate-limited
operation and the default parameters. -/
theorem c2_retry_all_rate_limited_witness :
    retryWithBackoff (fun _ => (.error e429 : Except JsErr Nat)) 3 1000 =
      (.error e429, 4, [ 1000, 2000, 4000 ]) := by
  rw [c2_retry_all_rate_limited (fun _ => .error e429) (fun _ => e429) 3 1000
    (fun _ _ => rfl) (fun _ _ => rfl)]
  rfl

/-- C3: when the first invocation fails with an error whose message does
not mention 429, `retryWithBackoff` makes exactly one invocation and
re-raises that failure with no wait. -/
theorem c3_non_rate_limited_single_attempt {A : Type}
    (gen : Nat → Except JsErr A) (maxRetries initialDelay : Nat) (e : JsErr)
    (h1 : gen 0 = .error e) (h2 : has429 e.msg = false) :
    retryWithBackoff gen maxRetries initialDelay = (.error e, 1, []) := by
  rw [retryWithBackoff, retryAuxF, h1]
  simp [is429, h2]

/-- C3, witness: the statement at a concrete operation whose first
failure is not rate-limited. -/
theorem c3_non_rate_limited_single_attempt_witness :
    retryWithBackoff (fun _ => (.error eQuota : Except JsErr Nat)) 3 1000 =
      (.error eQuota, 1, []) :=
  c3_non_rate_limited_single_attempt _ 3 1000 eQuota rfl rfl

/-! ## Facts about the POST handler -/

/-- A member of a `dropWhile` result is a member of the original list. -/
theorem mem_of_mem_dropWhile {p : Char → Bool} {l : List Char} {x : Char}
    (h : x ∈ l.dropWhile p) : x ∈ l := by
  induction l with
  | nil => simp at h
  | cons c cs ih =>
    rw [List.dropWhile] at h
    by_cases hc : p c
    · simp only [hc] at h
      exact List.mem_cons_of_mem _ (ih h)
    · simp only [hc] at h
      simpa using h

/-- The extraction regex needs an opening brace, so a text with no brace
at all has no match. -/
theorem extractJson_eq_none_of_no_brace {t : List Char} (h : '{' ∉ t) :
    extractJson t = none := by
  induction t with
  | nil => rfl
  | cons c cs ih =>
    have hcs : '{' ∉ cs := fun hm => h (List.mem_cons_of_mem _ hm)
    have hopen : matchOpen (c :: cs) = none := by
      rw [matchOpen]
      by_cases hc : c = '['
      · rw [if_pos hc]
        split
        · next r2 heq =>
            exact absurd (mem_of_mem_dropWhile (heq ▸ List.mem_cons_self _ _)) hcs
        · rfl
      · rw [if_neg hc]
    rw [extractJson]
    simp [hopen, ih hcs]

/-- C7: a request whose form has no `video` field is answered 400 with
the fixed message, with no scratch file written and no upstream call. -/
theorem c7_missing_video_field (env : Env) (h : env.formData = .ok none) :
    post env = ⟨⟨400, .errBody noVideoMsg⟩, false, false, false, 0⟩ := by
  simp [post, h]

/-- A request environment with no `video` field. -/
def envNoVideo : Env := ⟨.ok none, fun _ => .ok [], true⟩

/-- C7, witness: the statement at a concrete field-less request. -/
theorem c7_missing_video_field_witness :
    post envNoVideo = ⟨⟨400, .errBody noVideoMsg⟩, false, false, false, 0⟩ :=
  c7_missing_video_field envNoVideo rfl

/-- C8: whatever the request and the upstream behaviour, the handler
returns a classified HTTP response — 200 with an array payload, or 400
or 500 with an error payload — rather than propagating an exception. -/
theorem c8_every_failure_becomes_response (env : Env) :
    ((post env).resp.status = 200 ∧ ∃ tl, (post env).resp.body = .arrBody tl) ∨
    (((post env).resp.status = 400 ∨ (post env).resp.status = 500) ∧
      ∃ m, (post env).resp.body = .errBody m) := by
  rcases hf : env.formData with e | of
  · right; simp [post, hf]
  · rcases of with _ | file
    · right; simp [post, hf]
    · rcases hr : (retryWithBackoff env.gen 3 1000).1 with e | text
      · right; simp [post, hf, hr]
      · rcases he : extractJson text with _ | m
        · right; simp [post, hf, hr, he]
        · rcases hj : jsonParse m with _ | v
          · right; simp [post, hf, hr, he, hj]
          · rcases v with _ | b | lx | s | vs | fs
            case jarr => left; simp [post, hf, hr, he, hj]
            all_goals right; simp [post, hf, hr, he, hj]

/-- C1, counterexample: a request whose upstream call fails with a
non-rate-limited error gets a 500 response after the scratch file was
written, yet no deletion is attempted and the file is still on disk —
deletion is not attempted on every path as the claim states. -/
theorem c1_cleanup_counterexample :
    (post ⟨.ok (some ⟨str "c.mp4", str "video/mp4"⟩),
        fun _ => .error ⟨true, str "upstream unavailable"⟩, true⟩).resp.status
      = 500 ∧
    (post ⟨.ok (some ⟨str "c.mp4", str "video/mp4"⟩),
        fun _ => .error ⟨true, str "upstream unavailable"⟩, true⟩).scratchWritten
      = true ∧
    (post ⟨.ok (some ⟨str "c.mp4", str "video/mp4"⟩),
        fun _ => .error ⟨true, str "upstream unavailable"⟩, true⟩).deletionAttempted
      = false ∧
    (post ⟨.ok (some ⟨str "c.mp4", str "video/mp4"⟩),
        fun _ => .error ⟨true, str "upstream unavailable"⟩, true⟩).fileExistsAfter
      = true :=
  ⟨rfl, rfl, rfl, rfl⟩

/-- C1, amended: deletion of the scratch file is attempted exactly on
the success path — after a successful parse, before the 200 response —
and its failure is non-fatal (the unlink outcome never changes the
response); on the UpstreamError and ParseError paths the handler
returns without attempting deletion and the scratch file remains. -/
theorem c1_cleanup_only_on_success (env : Env) :
    ((post env).deletionAttempted = true ↔ (post env).resp.status = 200) ∧
    (∀ b, (post { env with unlinkOk := b }).resp = (post env).resp) := by
  constructor
  · rcases hf : env.formData with e | of
    · simp [post, hf]
    · rcases of with _ | file
      · simp [post, hf]
      · rcases hr : (retryWithBackoff env.gen 3 1000).1 with e | text
        · simp [post, hf, hr]
        · rcases he : extractJson text with _ | m
          · simp [post, hf, hr, he]
          · rcases hj : jsonParse m with _ | v
            · simp [post, hf, hr, he, hj]
            · rcases v with _ | b | lx | s | vs | fs <;>
                simp [post, hf, hr, he, hj]
  · intro b
    rcases hf : env.formData with e | of
    · simp [post, hf]
    · rcases of with _ | file
      · simp [post, hf]
      · rcases hr : (retryWithBackoff env.gen 3 1000).1 with e | text
        · simp [post, hf, hr]
        · rcases he : extractJson text with _ | m
          · simp [post, hf, hr, he]
          · rcases hj : jsonParse m with _ | v
            · simp [post, hf, hr, he, hj]
            · rcases v with _ | b | lx | s | vs | fs <;>
                simp [post, hf, hr, he, hj]

/-- C5: when the upstream reply (after retries succeed) contains no
regex match, or the matched substring is not valid JSON, the handler
answers 500 with the parse-failure message, not a success payload. -/
theorem c5_parse_failure_is_500 (env : Env) (file : FileData) (text : List Char)
    (hf : env.formData = .ok (some file))
    (hr : (retryWithBackoff env.gen 3 1000).1 = .ok text)
    (hp : extractJson text = none ∨
      ∃ m, extractJson text = some m ∧ jsonParse m = none) :
    (post env).resp = ⟨500, .errBody parseErrorMsg⟩ := by
  rcases hp with he | ⟨m, he, hj⟩
  · simp [post, hf, hr, he]
  · simp [post, hf, hr, he, hj]

/-- A reply with no JSON anywhere. -/
def proseReply : List Char := str "the model produced no structured reply"

/-- A request environment whose upstream reply is prose only. -/
def envProse : Env :=
  ⟨.ok (some ⟨str "c.mp4", str "video/mp4"⟩), fun _ => .ok proseReply, true⟩

/-- C5, witness: the statement at a concrete prose-only reply. -/
theorem c5_parse_failure_is_500_witness :
    (post envProse).resp = ⟨500, .errBody parseErrorMsg⟩ :=
  c5_parse_failure_is_500 envProse ⟨str "c.mp4", str "video/mp4"⟩ proseReply
    rfl rfl (Or.inl rfl)

/-- C10: a reply whose only bracketed content is the empty array — it
contains no brace at all — has no regex match (the pattern demands an
opening brace), so the handler answers 500 with the parse-failure
message instead of returning an empty success payload. -/
theorem c10_empty_array_is_parse_failure (env : Env) (file : FileData)
    (a b : List Char) (hf : env.formData = .ok (some file))
    (hr : (retryWithBackoff env.gen 3 1000).1 = .ok (a ++ '[' :: ']' :: b))
    (ha : '{' ∉ a) (hb : '{' ∉ b) :
    (post env).resp = ⟨500, .errBody parseErrorMsg⟩ := by
  have hnb : '{' ∉ a ++ '[' :: ']' :: b := by
    intro hmem
    simp only [List.mem_append, List.mem_cons] at hmem
    rcases hmem with h | h | h | h
    · exact ha h
    · exact absurd h (by decide)
    · exact absurd h (by decide)
    · exact hb h
  simp [post, hf, hr, extractJson_eq_none_of_no_brace hnb]

/-- A request environment whose upstream reply carries only the empty
array between prose. -/
def envEmptyArr : Env :=
  ⟨.ok (some ⟨str "c.mp4", str "video/mp4"⟩),
    fun _ => .ok (str "reply: " ++ '[' :: ']' :: str " end"), true⟩

/-- C10, witness: the statement at a concrete empty-array reply. -/
theorem c10_empty_array_is_parse_failure_witness :
    (post envEmptyArr).resp = ⟨500, .errBody parseErrorMsg⟩ :=
  c10_empty_array_is_parse_failure envEmptyArr ⟨str "c.mp4", str "video/mp4"⟩
    (str "reply: ") (str " end") rfl rfl (by decide) (by decide)

/-- Writing a key then reading it gives the written value. -/
theorem getField_setField_same (fs : List (List Char × JVal))
    (k : List Char) (v : JVal) : getField (setField fs k v) k = some v := by
  induction fs with
  | nil => simp [setField, getField]
  | cons kv rest ih =>
    obtain ⟨k0, w⟩ := kv
    by_cases h : k0 = k
    · simp [setField, getField, h]
    · simp [setField, getField, h, ih]

/-- Writing a key leaves every other key's value unchanged. -/
theorem getField_setField_other (fs : List (List Char × JVal))
    (k : List Char) (v : JVal) (k' : List Char) (h : k' ≠ k) :
    getField (setField fs k v) k' = getField fs k' := by
  induction fs with
  | nil =>
    simp only [setField, getField]
    rw [if_neg (fun hh => h hh.symm)]
  | cons kv rest ih =>
    obtain ⟨k0, w⟩ := kv
    by_cases h0 : k0 = k
    · subst h0
      simp only [setField, if_pos rfl, getField]
      rw [if_neg (fun hh => h hh.symm), if_neg (fun hh => h hh.symm)]
    · simp only [setField, if_neg h0, getField]
      by_cases h1 : k0 = k'
      · rw [if_pos h1, if_pos h1]
      · rw [if_neg h1, if_neg h1, ih]

/-- C6: on a successfully decoded entry sequence, the handler answers
200 with the decoded entries in their decoded order, each entry being
the original with `filename` overlaid to the uploaded file's name; for
a decoded object, the overlay sets `filename` to the file's name and
reads of every other key are unchanged. -/
theorem c6_filename_overlay (env : Env) (file : FileData) (text m : List Char)
    (vs : List JVal)
    (hf : env.formData = .ok (some file))
    (hr : (retryWithBackoff env.gen 3 1000).1 = .ok text)
    (he : extractJson text = some m)
    (hj : jsonParse m = some (.jarr vs)) :
    (post env).resp = ⟨200, .arrBody (vs.map (overlayEntry file.name))⟩ ∧
    ∀ fs, JVal.jobj fs ∈ vs →
      overlayEntry file.name (.jobj fs) =
        .jobj (setField fs filenameKey (.jstr file.name)) ∧
      getField (setField fs filenameKey (.jstr file.name)) filenameKey =
        some (.jstr file.name) ∧
      ∀ k, k ≠ filenameKey →
        getField (setField fs filenameKey (.jstr file.name)) k = getField fs k :=
  ⟨by simp [post, hf, hr, he, hj],
   fun fs _ => ⟨rfl, getField_setField_same fs _ _,
     fun k hk => getField_setField_other fs _ _ k hk⟩⟩

/-- The model reply of the parser scenario in spec section 8. -/
def specReply : List Char :=
  str "blah [\x7b\"tc_in\":\"00:00:00:00\",\"tc_out\":\"00:00:01:00\",\"speaker\":\"Speaker 1\",\"dialogue\":\"hi\"\x7d] blah"

/-- The substring the regex selects out of `specReply`. -/
def specMatch : List Char :=
  str "[\x7b\"tc_in\":\"00:00:00:00\",\"tc_out\":\"00:00:01:00\",\"speaker\":\"Speaker 1\",\"dialogue\":\"hi\"\x7d]"

/-- The fields of the one entry decoded from `specReply`. -/
def specFields : List (List Char × JVal) :=
  [(str "tc_in", .jstr (str "00:00:00:00")),
   (str "tc_out", .jstr (str "00:00:01:00")),
   (str "speaker", .jstr (str "Speaker 1")),
   (str "dialogue", .jstr (str "hi"))]

/-- A request environment receiving `specReply` from upstream. -/
def envSpec : Env :=
  ⟨.ok (some ⟨str "clip.mp4", str "video/mp4"⟩), fun _ => .ok specReply, true⟩

set_option maxRecDepth 40000 in
/-- C6, witness: the statement at the spec's own parser scenario. -/
theorem c6_filename_overlay_witness :
    (post envSpec).resp =
      ⟨200, .arrBody [overlayEntry (str "clip.mp4") (.jobj specFields)]⟩ ∧
    getField (setField specFields filenameKey (.jstr (str "clip.mp4")))
      (str "tc_in") = some (.jstr (str "00:00:00:00")) := by
  have h := c6_filename_overlay envSpec ⟨str "clip.mp4", str "video/mp4"⟩
    specReply specMatch [ .jobj specFields ] rfl rfl rfl rfl
  refine ⟨by rw [h.1]; rfl, ?_⟩
  rw [(h.2 specFields (by simp)).2.2 (str "tc_in") (by decide)]
  rfl

/-! ## Facts about the extraction regex -/

/-- `dropWhile` runs over a satisfying prefix and stops at a failing head. -/
theorem dropWhile_all_cons {p : Char → Bool} (ws : List Char) (x : Char)
    (r : List Char) (hws : ws.all p = true) (hx : p x = false) :
    (ws ++ x :: r).dropWhile p = x :: r := by
  induction ws with
  | nil => simp [List.dropWhile, hx]
  | cons w tl ih =>
    simp only [List.all_cons, Bool.and_eq_true] at hws
    simp [List.dropWhile, hws.1, ih hws.2]

/-- `takeWhile` keeps a satisfying prefix and stops at a failing head. -/
theorem takeWhile_all_cons {p : Char → Bool} (ws : List Char) (x : Char)
    (r : List Char) (hws : ws.all p = true) (hx : p x = false) :
    (ws ++ x :: r).takeWhile p = ws := by
  induction ws with
  | nil => simp [List.takeWhile, hx]
  | cons w tl ih =>
    simp only [List.all_cons, Bool.and_eq_true] at hws
    simp [List.takeWhile, hws.1, ih hws.2]

/-- The head of the pattern matches at a bracket-whitespace-brace start. -/
theorem matchOpen_render (ws1 rest : List Char) (h : ws1.all isWs = true) :
    matchOpen ('[' :: (ws1 ++ '{' :: rest)) =
      some ('[' :: (ws1 ++ ['{']), rest) := by
  simp [matchOpen, dropWhile_all_cons ws1 '{' rest h (by decide),
    takeWhile_all_cons ws1 '{' rest h (by decide)]

/-- The reversed-scan runs over a completion-free segment and latches on
to the closing bracket that follows it. -/
theorem findTailRev_skip (cs : List Char) : ∀ (j : Nat) (act : Bool) (k : Nat)
    (rest2 : List Char), scanCompletes cs act = false →
    findTailRev (cs ++ ']' :: rest2) j act k =
      findTailRev rest2 (j + cs.length + 1) true (j + cs.length) := by
  induction cs with
  | nil =>
    intro j act k rest2 _
    simp [findTailRev]
  | cons c tl ih =>
    intro j act k rest2 h
    rw [List.cons_append, findTailRev]
    rw [scanCompletes] at h
    by_cases hc : c = ']'
    · rw [if_pos hc] at h
      rw [if_pos hc, ih (j + 1) true j rest2 h]
      rw [show j + 1 + tl.length = j + (c :: tl).length by simp only [List.length_cons]; omega]
    · rw [if_neg hc] at h
      rw [if_neg hc]
      rcases act with _ | _
      · rw [if_neg (by simp)] at h
        rw [if_neg (by simp), ih (j + 1) false 0 rest2 h]
        rw [show j + 1 + tl.length = j + (c :: tl).length by simp only [List.length_cons]; omega]
      · rw [if_pos rfl] at h
        rw [if_pos rfl]
        by_cases hcb : c = '}'
        · rw [if_pos hcb] at h
          exact absurd h (by simp)
        · rw [if_neg hcb] at h
          rw [if_neg hcb]
          by_cases hw : isWs c
          · rw [if_pos hw] at h
            rw [if_pos hw, ih (j + 1) true k rest2 h]
            rw [show j + 1 + tl.length = j + (c :: tl).length by simp only [List.length_cons]; omega]
          · rw [if_neg hw] at h
            rw [if_neg hw, ih (j + 1) false 0 rest2 h]
            rw [show j + 1 + tl.length = j + (c :: tl).length by simp only [List.length_cons]; omega]

/-- With a closing bracket latched, the reversed-scan runs over
whitespace and completes at the closing brace. -/
theorem findTailRev_ws_close (ws : List Char) : ∀ (j k : Nat)
    (rest3 : List Char), ws.all isWs = true →
    findTailRev (ws ++ '}' :: rest3) j true k = some k := by
  induction ws with
  | nil =>
    intro j k rest3 _
    simp [findTailRev]
  | cons w tl ih =>
    intro j k rest3 h
    simp only [List.all_cons, Bool.and_eq_true] at h
    have hw1 : w ≠ ']' := fun e => by rw [e] at h; exact absurd h.1 (by decide)
    have hw2 : w ≠ '}' := fun e => by rw [e] at h; exact absurd h.1 (by decide)
    rw [List.cons_append, findTailRev, if_neg hw1, if_pos rfl, if_neg hw2,
      if_pos h.1]
    exact ih (j + 1) k rest3 h.2

/-- The regex tries start positions from the left: a prefix with no
bracket-whitespace-brace start is skipped. -/
theorem extractJson_append_skip (a u : List Char) (ha : hasOpenPat a = false) :
    extractJson (a ++ '[' :: u) = extractJson ('[' :: u) := by
  induction a with
  | nil => rfl
  | cons c tl ih =>
    rw [hasOpenPat] at ha
    by_cases hc : c = '['
    · rw [if_pos hc] at ha
      split at ha
      · exact absurd ha (by simp)
      · next hne =>
        have hopen : matchOpen (c :: (tl ++ '[' :: u)) = none := by
          rw [matchOpen, if_pos hc, List.dropWhile_append]
          rcases hd : tl.dropWhile isWs with _ | ⟨d, dtl⟩
          · simp only [hd, List.isEmpty_nil, if_true]
            simp [List.dropWhile, show isWs '[' = false by decide]
          · simp only [hd, List.isEmpty_cons, if_false]
            have hdne : d ≠ '{' := fun e => hne dtl (by rw [hd, e])
            split
            · next r2 heq =>
              rw [List.cons_append] at heq
              exact absurd (List.head_eq_of_cons_eq heq) hdne
            · rfl
        rw [List.cons_append, extractJson]
        simp [hopen, ih ha]
    · rw [if_neg hc] at ha
      have hopen : matchOpen (c :: (tl ++ '[' :: u)) = none := by
        rw [matchOpen, if_neg hc]
      rw [List.cons_append, extractJson]
      simp [hopen, ih ha]

/-- Unfolding `extractJson` when the head pattern matches and the
reversed-scan finds the closing pair. -/
theorem extractJson_cons_found (c : Char) (cs pre rest : List Char) (k : Nat)
    (h1 : matchOpen (c :: cs) = some (pre, rest))
    (h2 : findTailRev rest.reverse 0 false 0 = some k) :
    extractJson (c :: cs) = some (pre ++ rest.take (rest.length - k)) := by
  rw [extractJson, h1]
  show (match findTailRev rest.reverse 0 false 0 with
    | some k => some (pre ++ rest.take (rest.length - k))
    | none => extractJson cs) = _
  rw [h2]

/-- The first top-level JSON array of the counterexample reply. -/
def cexFirst : List Char := str "[\x7b\"a\":\"x\"\x7d]"

/-- A reply holding two JSON arrays separated by prose. -/
def cexReply : List Char := str "[\x7b\"a\":\"x\"\x7d] p [\x7b\"b\":\"y\"\x7d]"

/-- C4, counterexample: on a reply with two JSON arrays, the code does
not select and decode the first one.  The first array is a prefix of the
reply and itself matches the pattern, and it decodes; but the greedy
regex selects the whole reply, which differs from the first array and is
not valid JSON, so decoding what was selected fails. -/
theorem c4_greedy_counterexample :
    cexReply = cexFirst ++ str " p [\x7b\"b\":\"y\"\x7d]" ∧
    patShaped cexFirst = true ∧
    jsonParse cexFirst = some (.jarr [.jobj [(str "a", .jstr (str "x"))]]) ∧
    extractJson cexReply = some cexReply ∧
    cexReply ≠ cexFirst ∧
    jsonParse cexReply = none :=
  ⟨rfl, rfl, rfl, rfl, by decide, rfl⟩

/-- C4, amended: the regex selects the leftmost-starting greedy match:
it starts at the first bracket-whitespace-brace and runs to the last
brace-whitespace-bracket of the remaining text.  So the first top-level
JSON array is selected, with arbitrary prose tolerated around it,
exactly when the prose before it has no bracket-whitespace-brace start
and the prose after it has no brace-whitespace-bracket close; with
several arrays present the single greedy match spans them all. -/
theorem c4_greedy_extraction (a ws1 mid ws2 b : List Char)
    (hw1 : ws1.all isWs = true) (hw2 : ws2.all isWs = true)
    (ha : hasOpenPat a = false)
    (hb : scanCompletes b.reverse false = false) :
    extractJson
        (a ++ '[' :: (ws1 ++ '{' :: (mid ++ '}' :: (ws2 ++ ']' :: b)))) =
      some ('[' :: (ws1 ++ '{' :: (mid ++ '}' :: (ws2 ++ [']'])))) := by
  rw [extractJson_append_skip a (ws1 ++ '{' :: (mid ++ '}' :: (ws2 ++ ']' :: b))) ha]
  have hft : findTailRev (mid ++ '}' :: (ws2 ++ ']' :: b)).reverse 0 false 0 =
      some b.length := by
    have hrev : (mid ++ '}' :: (ws2 ++ ']' :: b)).reverse =
        b.reverse ++ ']' :: (ws2.reverse ++ '}' :: mid.reverse) := by
      simp
    rw [hrev, findTailRev_skip b.reverse 0 false 0 _ hb,
      findTailRev_ws_close ws2.reverse _ _ mid.reverse
        (by rw [List.all_reverse]; exact hw2)]
    simp
  rw [extractJson_cons_found '[' (ws1 ++ '{' :: (mid ++ '}' :: (ws2 ++ ']' :: b)))
    ('[' :: (ws1 ++ ['{'])) (mid ++ '}' :: (ws2 ++ ']' :: b)) b.length
    (matchOpen_render ws1 (mid ++ '}' :: (ws2 ++ ']' :: b)) hw1) hft]
  have hsplit : mid ++ '}' :: (ws2 ++ ']' :: b) =
      (mid ++ '}' :: (ws2 ++ [']'])) ++ b := by
    simp
  rw [show (mid ++ '}' :: (ws2 ++ ']' :: b)).length - b.length =
      (mid ++ '}' :: (ws2 ++ [']'])).length by simp; omega]
  rw [hsplit, List.take_left]
  simp

/-- C4, witness: the amended statement at the spec's parser-scenario
shape — prose, one array, prose. -/
theorem c4_greedy_extraction_witness :
    extractJson (str "blah " ++ '[' :: ([] ++ '{' ::
        (str "\"a\":\"x\"" ++ '}' :: ([] ++ ']' :: str " blah")))) =
      some ('[' :: ([] ++ '{' :: (str "\"a\":\"x\"" ++ '}' :: ([] ++ [']'])))) :=
  c4_greedy_extraction (str "blah ") [] (str "\"a\":\"x\"") [] (str " blah")
    rfl rfl (by decide) (by decide)

/-! ## The export round trip -/

/-- Decoding a hexadecimal digit written by `hexDigitChar` recovers the
value. -/
theorem hexVal_hexDigitChar : ∀ n, n < 16 → hexVal (hexDigitChar n) = some n := by
  decide

/-- Reading an escaped string body back: `parseStringBody` undoes
`escChar` up to the closing quote. -/
theorem parseStringBody_escape (s rest : List Char) :
    parseStringBody ((s.map escChar).flatten ++ '"' :: rest) = some (s, rest) := by
  induction s with
  | nil =>
    rw [List.map_nil, List.flatten_nil, List.nil_append, parseStringBody.eq_def]
    simp
  | cons c cs ih =>
    simp only [List.map_cons, List.flatten_cons, List.append_assoc]
    by_cases h1 : c = '"'
    · subst h1
      simp only [show escChar '"' = ['\\', '"'] from rfl, List.cons_append,
        List.nil_append]
      rw [parseStringBody.eq_def]
      simp +decide [unescChar, ih]
    · by_cases h2 : c = '\\'
      · subst h2
        simp only [show escChar '\\' = ['\\', '\\'] from rfl, List.cons_append,
          List.nil_append]
        rw [parseStringBody.eq_def]
        simp +decide [unescChar, ih]
      · by_cases h3 : c = Char.ofNat 8
        · subst h3
          simp only [show escChar (Char.ofNat 8) = ['\\', 'b'] from rfl,
            List.cons_append, List.nil_append]
          rw [parseStringBody.eq_def]
          simp +decide [unescChar, ih]
        · by_cases h4 : c = Char.ofNat 12
          · subst h4
            simp only [show escChar (Char.ofNat 12) = ['\\', 'f'] from rfl,
              List.cons_append, List.nil_append]
            rw [parseStringBody.eq_def]
            simp +decide [unescChar, ih]
          · by_cases h5 : c = '\n'
            · subst h5
              simp only [show escChar '\n' = ['\\', 'n'] from rfl,
                List.cons_append, List.nil_append]
              rw [parseStringBody.eq_def]
              simp +decide [unescChar, ih]
            · by_cases h6 : c = '\r'
              · subst h6
                simp only [show escChar '\r' = ['\\', 'r'] from rfl,
                  List.cons_append, List.nil_append]
                rw [parseStringBody.eq_def]
                simp +decide [unescChar, ih]
              · by_cases h7 : c = '\t'
                · subst h7
                  simp only [show escChar '\t' = ['\\', 't'] from rfl,
                    List.cons_append, List.nil_append]
                  rw [parseStringBody.eq_def]
                  simp +decide [unescChar, ih]
                · by_cases h8 : c.toNat < 32
                  · rw [escChar, if_neg h1, if_neg h2, if_neg h3, if_neg h4,
                      if_neg h5, if_neg h6, if_neg h7, if_pos h8]
                    have hd1 : hexVal (hexDigitChar (c.toNat / 16)) =
                        some (c.toNat / 16) :=
                      hexVal_hexDigitChar _ (Nat.div_lt_of_lt_mul (by omega))
                    have hd2 : hexVal (hexDigitChar (c.toNat % 16)) =
                        some (c.toNat % 16) :=
                      hexVal_hexDigitChar _ (Nat.mod_lt _ (by omega))
                    have hmod : 16 * (c.toNat / 16) + c.toNat % 16 = c.toNat := by
                      have := Nat.div_add_mod c.toNat 16
                      omega
                    simp only [List.cons_append, List.nil_append]
                    rw [parseStringBody.eq_def]
                    simp +decide [hd1, hd2, hmod, ih, Char.ofNat_toNat,
                      show hexVal '0' = some 0 from rfl,
                      show ¬(0xd800 ≤ c.toNat ∧ c.toNat ≤ 0xdfff) by omega]
                  · rw [escChar, if_neg h1, if_neg h2, if_neg h3, if_neg h4,
                      if_neg h5, if_neg h6, if_neg h7, if_neg h8]
                    simp only [List.cons_append, List.nil_append]
                    rw [parseStringBody.eq_def]
                    simp only [h1, h2, h8, if_false, ite_false]
                    rw [ih]
                    rfl

/-- Reading a quoted string written by `quoteStr` back as a JSON value. -/
theorem parseVal_quote (f : Nat) (s rest : List Char) :
    parseVal (f + 1) (quoteStr s ++ rest) = some (.jstr s, rest) := by
  have h : quoteStr s ++ rest =
      '"' :: ((s.map escChar).flatten ++ '"' :: rest) := by
    simp [quoteStr]
  rw [h, parseVal]
  simp +decide [parseValStep, parseStringBody_escape]

/-- A quoted string followed by anything, with the opening quote exposed. -/
theorem quoteStr_expose (s rest : List Char) :
    quoteStr s ++ rest = '"' :: ((s.map escChar).flatten ++ '"' :: rest) := by
  simp [quoteStr]

/-- The members of a pretty-printed object, from the first key's opening
quote through the closing brace: key, colon-space, value, then either
comma-newline-indent and the rest, or newline-indent-brace. -/
def renderFields : List (List Char × List Char) → List Char
  | [] => ['\x7d']
  | [(k, v)] =>
    quoteStr k ++ ':' :: ' ' :: quoteStr v ++ '\n' :: ' ' :: ' ' :: ['\x7d']
  | (k, v) :: ms =>
    quoteStr k ++ ':' :: ' ' :: quoteStr v ++
      ',' :: '\n' :: ' ' :: ' ' :: ' ' :: ' ' :: renderFields ms

/-- A client entry's members as key-value text pairs, in interface order. -/
def entryPairs (e : TimelineEntry) : List (List Char × List Char) :=
  [(str "filename", e.filename), (str "tc_in", e.tc_in),
   (str "tc_out", e.tc_out), (str "speaker", e.speaker),
   (str "dialogue", e.dialogue)]

/-- `entryText` is the brace, a newline, the member indent, and the
members. -/
theorem entryText_eq (e : TimelineEntry) :
    entryText e = '\x7b' :: '\n' :: ' ' :: ' ' :: ' ' :: ' ' ::
      renderFields (entryPairs e) := by
  simp [entryText, fieldText, renderFields, entryPairs]

/-- A member list starts at its first key's opening quote, which is not
whitespace. -/
theorem dropWhile_renderFields (k v : List Char)
    (ms : List (List Char × List Char)) (ctx : List Char) :
    (renderFields ((k, v) :: ms) ++ ctx).dropWhile jsonWs =
      renderFields ((k, v) :: ms) ++ ctx := by
  cases ms with
  | nil =>
    simp only [renderFields, List.append_assoc, List.cons_append,
      List.nil_append, quoteStr_expose]
    simp +decide [List.dropWhile, jsonWs]
  | cons kv2 tl2 =>
    simp only [renderFields, List.append_assoc, List.cons_append,
      List.nil_append, quoteStr_expose]
    simp +decide [List.dropWhile, jsonWs]

set_option synthInstance.maxHeartbeats 1000000 in
/-- Reading a pretty-printed member list back: each key with its string
value in order, consuming the closing brace. -/
theorem parseFieldsH_render (pv : List Char → Option (JVal × List Char))
    (hpv : ∀ v rest, pv (quoteStr v ++ rest) = some (.jstr v, rest)) :
    ∀ (ms : List (List Char × List Char)), ms ≠ [] → ∀ (g : Nat) (ctx : List Char),
    parseFieldsH pv (g + ms.length) (renderFields ms ++ ctx) =
      some (ms.map fun kv => (kv.1, JVal.jstr kv.2), ctx) := by
  have hpv2 : ∀ v rest, pv ('"' :: ((v.map escChar).flatten ++ '"' :: rest)) =
      some (.jstr v, rest) := fun v rest => by
    rw [← quoteStr_expose]
    exact hpv v rest
  intro ms
  induction ms with
  | nil => intro h; exact absurd rfl h
  | cons kv tl ih =>
    intro _ g ctx
    obtain ⟨k, v⟩ := kv
    cases tl with
    | nil =>
      show parseFieldsH pv (g + 1) _ = _
      simp only [renderFields, List.append_assoc, List.cons_append,
        List.nil_append]
      rw [quoteStr_expose, parseFieldsH]
      simp +decide [parseStringBody_escape, hpv2, List.dropWhile, jsonWs]
    | cons kv2 tl2 =>
      obtain ⟨k2, v2⟩ := kv2
      rw [show g + ((k, v) :: (k2, v2) :: tl2).length =
        (g + ((k2, v2) :: tl2).length) + 1 by simp only [List.length_cons]; omega]
      simp only [renderFields, List.append_assoc, List.cons_append,
        List.nil_append]
      rw [quoteStr_expose, parseFieldsH]
      simp +decide [parseStringBody_escape, hpv2, List.dropWhile, jsonWs,
        dropWhile_renderFields]
      have h2 := ih (by simp) g ctx
      simp only [List.length_cons, List.map_cons] at h2
      rw [h2]

/-- Each member contributes at least one character to the rendering. -/
theorem renderFields_length_le :
    ∀ ms : List (List Char × List Char), ms.length ≤ (renderFields ms).length := by
  intro ms
  induction ms with
  | nil => simp [renderFields]
  | cons kv tl ih =>
    obtain ⟨k, v⟩ := kv
    cases tl with
    | nil => simp [renderFields, quoteStr]
    | cons kv2 tl2 =>
      simp only [renderFields, List.length_append, List.length_cons,
        List.length_nil, quoteStr] at ih ⊢
      omega

/-- `parseFieldsH_render` at any sufficient fuel. -/
theorem parseFieldsH_render_any (pv : List Char → Option (JVal × List Char))
    (hpv : ∀ v rest, pv (quoteStr v ++ rest) = some (.jstr v, rest))
    (ms : List (List Char × List Char)) (h : ms ≠ []) (F : Nat)
    (hF : ms.length ≤ F) (ctx : List Char) :
    parseFieldsH pv F (renderFields ms ++ ctx) =
      some (ms.map fun kv => (kv.1, JVal.jstr kv.2), ctx) := by
  obtain ⟨g, rfl⟩ : ∃ g, F = g + ms.length := ⟨F - ms.length, by omega⟩
  exact parseFieldsH_render pv hpv ms h g ctx

/-- Collapsing the freshly parsed members of an entry changes nothing:
the five keys are distinct. -/
theorem entry_collapse (e : TimelineEntry) :
    JVal.jobj (collapseFields
        ((entryPairs e).map fun kv => (kv.1, JVal.jstr kv.2))) = entryJVal e :=
  rfl

/-- Reading one pretty-printed entry back as a JSON object. -/
theorem parseVal_entry (f : Nat) (e : TimelineEntry) (ctx : List Char) :
    parseVal (f + 2) (entryText e ++ ctx) = some (entryJVal e, ctx) := by
  obtain ⟨t, ht⟩ : ∃ t, renderFields (entryPairs e) ++ ctx = '"' :: t := by
    simp only [entryPairs, renderFields, quoteStr_expose, List.cons_append,
      List.append_assoc]
    exact ⟨_, rfl⟩
  rw [entryText_eq]
  simp only [List.cons_append]
  rw [show f + 2 = (f + 1) + 1 from rfl, parseVal, ht]
  simp +decide [parseValStep, List.dropWhile, jsonWs]
  rw [← ht]
  rw [show t.length + 1 + 1 = (renderFields (entryPairs e) ++ ctx).length + 1 by
    rw [ht]; simp]
  rw [parseFieldsH_render_any (parseVal (f + 1)) (parseVal_quote f)
    (entryPairs e) (by simp [entryPairs])
    ((renderFields (entryPairs e) ++ ctx).length + 1)
    (by
      have := renderFields_length_le (entryPairs e)
      simp only [entryPairs, List.length_cons, List.length_nil,
        List.length_append] at this ⊢
      omega) ctx]
  rw [show (some ((entryPairs e).map fun kv => (kv.1, JVal.jstr kv.2), ctx) :
      Option (List (List Char × JVal) × List Char)) =
    some ([(str "filename", JVal.jstr e.filename),
      (str "tc_in", JVal.jstr e.tc_in), (str "tc_out", JVal.jstr e.tc_out),
      (str "speaker", JVal.jstr e.speaker),
      (str "dialogue", JVal.jstr e.dialogue)], ctx) from rfl]
  rfl

/-- A rendered element list starts with the first entry's opening brace. -/
theorem itemsText_head (e : TimelineEntry) (tl : List TimelineEntry) :
    ∃ t, itemsText (e :: tl) = '\x7b' :: t := by
  cases tl with
  | nil =>
    rw [show itemsText [e] = entryText e ++ '\n' :: [']'] from rfl, entryText_eq]
    exact ⟨_, rfl⟩
  | cons e2 tl2 =>
    rw [show itemsText (e :: e2 :: tl2) =
      entryText e ++ ',' :: '\n' :: ' ' :: ' ' :: itemsText (e2 :: tl2) from rfl,
      entryText_eq]
    exact ⟨_, rfl⟩

/-- A rendered element list does not start with whitespace. -/
theorem dropWhile_itemsText (e : TimelineEntry) (tl : List TimelineEntry)
    (ctx : List Char) :
    (itemsText (e :: tl) ++ ctx).dropWhile jsonWs = itemsText (e :: tl) ++ ctx := by
  obtain ⟨t, ht⟩ := itemsText_head e tl
  rw [ht]
  simp +decide [List.dropWhile, jsonWs]

/-- Each entry contributes at least one character to the rendering. -/
theorem itemsText_length_le :
    ∀ ts : List TimelineEntry, ts.length ≤ (itemsText ts).length := by
  intro ts
  induction ts with
  | nil => simp [itemsText]
  | cons e tl ih =>
    cases tl with
    | nil => simp [itemsText]
    | cons e2 tl2 =>
      rw [show itemsText (e :: e2 :: tl2) =
        entryText e ++ ',' :: '\n' :: ' ' :: ' ' :: itemsText (e2 :: tl2)
        from rfl]
      simp only [List.length_append, List.length_cons] at ih ⊢
      omega

/-- Reading a pretty-printed element list back: the entries in order,
consuming the closing bracket. -/
theorem parseItemsH_render (pv : List Char → Option (JVal × List Char))
    (hpe : ∀ e ctx, pv (entryText e ++ ctx) = some (entryJVal e, ctx)) :
    ∀ ts : List TimelineEntry, ts ≠ [] → ∀ (g : Nat) (ctx : List Char),
    parseItemsH pv (g + ts.length) (itemsText ts ++ ctx) =
      some (ts.map entryJVal, ctx) := by
  intro ts
  induction ts with
  | nil => intro h; exact absurd rfl h
  | cons e tl ih =>
    intro _ g ctx
    cases tl with
    | nil =>
      show parseItemsH pv (g + 1) _ = _
      simp only [itemsText, List.append_assoc, List.cons_append,
        List.nil_append]
      rw [parseItemsH]
      simp +decide [hpe, List.dropWhile, jsonWs]
    | cons e2 tl2 =>
      rw [show g + (e :: e2 :: tl2).length = (g + (e2 :: tl2).length) + 1
        by simp only [List.length_cons]; omega]
      simp only [itemsText, List.append_assoc, List.cons_append,
        List.nil_append]
      rw [parseItemsH]
      simp +decide [hpe, List.dropWhile, jsonWs, dropWhile_itemsText]
      have h2 := ih (by simp) g ctx
      simp only [List.length_cons, List.map_cons] at h2
      rw [h2]

/-- `parseItemsH_render` at any sufficient fuel. -/
theorem parseItemsH_render_any (pv : List Char → Option (JVal × List Char))
    (hpe : ∀ e ctx, pv (entryText e ++ ctx) = some (entryJVal e, ctx))
    (ts : List TimelineEntry) (h : ts ≠ []) (F : Nat) (hF : ts.length ≤ F)
    (ctx : List Char) :
    parseItemsH pv F (itemsText ts ++ ctx) = some (ts.map entryJVal, ctx) := by
  obtain ⟨g, rfl⟩ : ∃ g, F = g + ts.length := ⟨F - ts.length, by omega⟩
  exact parseItemsH_render pv hpe ts h g ctx

/-- Reading one rendered entry object back as a client entry. -/
theorem entryOfJVal_inv (e : TimelineEntry) :
    entryOfJVal (entryJVal e) = some e := rfl

/-- Reading a rendered entry list back as client entries. -/
theorem entriesOfJVals_inv :
    ∀ ts : List TimelineEntry, entriesOfJVals (ts.map entryJVal) = some ts := by
  intro ts
  induction ts with
  | nil => rfl
  | cons e tl ih => simp [entriesOfJVals, entryOfJVal_inv, ih]

/-- C9: serializing a client timeline to the download JSON and decoding
that JSON yields the same timeline. -/
theorem c9_export_round_trip (ts : List TimelineEntry) :
    decodeTimeline (renderTimeline ts) = some ts := by
  cases ts with
  | nil => rfl
  | cons e tl =>
    obtain ⟨t, ht⟩ := itemsText_head e tl
    have hs : renderTimeline (e :: tl) =
        '[' :: '\n' :: ' ' :: ' ' :: itemsText (e :: tl) := rfl
    rw [decodeTimeline, jsonParse, hs, ht]
    simp +decide [List.dropWhile, jsonWs]
    rw [show t.length + 1 + 1 + 1 + 1 + 1 + 1 = (t.length + 5) + 1 from by
      omega]
    rw [parseVal]
    simp +decide [parseValStep, List.dropWhile, jsonWs]
    rw [← ht]
    rw [show t.length + 1 + 1 = (itemsText (e :: tl)).length + 1 from by
      rw [ht]; simp]
    rw [← List.append_nil (itemsText (e :: tl))]
    have hitems := parseItemsH_render_any (parseVal (t.length + 5))
      (fun e2 ctx => by
        rw [show t.length + 5 = (t.length + 3) + 2 from rfl]
        exact parseVal_entry (t.length + 3) e2 ctx)
      (e :: tl) (by simp) ((itemsText (e :: tl) ++ []).length + 1)
      (by
        have := itemsText_length_le (e :: tl)
        simp only [List.length_cons, List.length_append, List.length_nil]
          at this ⊢
        omega) []
    rw [hitems]
    simp only [List.map_cons]
    exact entriesOfJVals_inv (e :: tl)

end Asr
